import Mathlib

/-!
Verification development for the BorB4 trading engine.

The JavaScript sources are embedded shallowly:
* JavaScript numbers are modelled as exact rationals, with `none : Option ℚ`
  standing for NaN (the result of `parseFloat` on a non-numeric field).
  Every JS arithmetic operation and comparison used by the sizing code is
  mirrored, including the fact that every comparison involving NaN is false.
* `Math.floor(x * 10^k) / 10^k` becomes `floorTo k`, and `toFixed(k)`
  (round to nearest, half away from zero; all inputs here are positive,
  so this is floor of x + 1/2 on the scaled value) becomes `roundTo k`.
* The fill-polling loops of the backend become structural recursion on the
  remaining attempt count, with explicit poll and sleep accounting.
* The per-symbol entry race is modelled as an interleaving of the atomic
  segments of two concurrent `placeOrder` runs: the segment that reads the
  open-orders list, and the segment that submits the buy order.  In the
  source the two segments are separated by `await` suspension points
  (App.js lines 637 and 797), and two runs can interleave there: the
  1-minute interval timer invokes `loadData` through a stale closure whose
  `isLoading` is permanently false, and the Manual BUY button invokes
  `placeOrder` directly with no flag at all.
-/

namespace BorB

/-- JavaScript number: an exact rational, or NaN (`none`). -/
abbrev JNum := Option ℚ

/-- JS addition; NaN propagates. -/
def jadd : JNum → JNum → JNum
  | some a, some b => some (a + b)
  | _, _ => none

/-- JS subtraction; NaN propagates. -/
def jsub : JNum → JNum → JNum
  | some a, some b => some (a - b)
  | _, _ => none

/-- JS multiplication; NaN propagates. -/
def jmul : JNum → JNum → JNum
  | some a, some b => some (a * b)
  | _, _ => none

/-- JS `Math.min`; NaN propagates. -/
def jmin : JNum → JNum → JNum
  | some a, some b => some (min a b)
  | _, _ => none

/-- JS `<`: false whenever either side is NaN. -/
def jlt : JNum → JNum → Bool
  | some a, some b => decide (a < b)
  | _, _ => false

/-- JS `>`: false whenever either side is NaN. -/
def jgt (a b : JNum) : Bool := jlt b a

/-- JS `<=`: false whenever either side is NaN. -/
def jle : JNum → JNum → Bool
  | some a, some b => decide (a ≤ b)
  | _, _ => false

/-- JS `Math.floor`; `Math.floor(NaN) = NaN`. -/
def jfloor : JNum → JNum
  | some a => some ((⌊a⌋ : ℤ) : ℚ)
  | none => none

/-- `Math.floor(x * 100) / 100`, the two-decimal truncation used on
allocations and notionals in `placeOrder` (App.js 722, 737, 768). -/
def jfloor2 (x : JNum) : JNum := (jfloor (jmul x (some 100))).map (· / 100)

/-- `Math.floor(x * 10^k) / 10^k` on plain (non-NaN) numbers. -/
def floorTo (k : ℕ) (x : ℚ) : ℚ := ((⌊x * (10 : ℚ) ^ k⌋ : ℤ) : ℚ) / (10 : ℚ) ^ k

/-- `Number(x).toFixed(k)` reparsed, on plain positive numbers: round the
scaled value to the nearest integer (half up). -/
def roundTo (k : ℕ) (x : ℚ) : ℚ := ((round (x * (10 : ℚ) ^ k) : ℤ) : ℚ) / (10 : ℚ) ^ k

/-! ### Frontend constants (App.js lines 59 to 70 and 704 to 707) -/

def COOL_DOWN_MS : ℕ := 30 * 60 * 1000
def BUY_LIMIT_BUFFER : ℚ := 999 / 1000
def SELL_TARGET_MULTIPLIER : ℚ := 10015 / 10000
def STOP_LOSS_PERCENT : ℚ := 25 / 1000
def SAFETY_MARGIN : ℚ := 1
def PRICE_COLLAR_PERCENT : ℚ := 2 / 100
def EXTRA_BUFFER : ℚ := 1 / 100
def SAFETY_FACTOR : ℚ := 1 - PRICE_COLLAR_PERCENT - EXTRA_BUFFER

/-- Reason strings of the three sizing skips in `placeOrder`
(App.js 727, 753, 774), as an enumeration. -/
inductive SkipReason
  | safetyMarginExceeded
  | insufficientCash
  | belowMinAfterAdjustment
deriving DecidableEq

/-- Outcome of the sizing block of `placeOrder`. -/
inductive SizeResult
  | skip (reason : SkipReason)
  | submit (notional : JNum)
deriving DecidableEq

/-- The sizing computation of `placeOrder`, App.js lines 694 to 780:
`cash` and `equity` are the parsed account fields (NaN when the field was
present but not numeric), `slope` is the trend slope.  Mirrors, in order:
target allocation, min with cash minus margin, safety factor, the
allocation-exceeds-cash guard, the non-positive guard, two-decimal floor,
the two below-minimum guards and the cap-to-cash branch. -/
def placeOrderSizing (cash equity : JNum) (slope : ℚ) : SizeResult :=
  let targetAllocation :=
    jmul equity (some (if (5 : ℚ) / 100 ≤ slope then 5 / 100 else 10 / 100))
  let allocation0 := jmin targetAllocation (jsub cash (some SAFETY_MARGIN))
  let allocation1 := jmul allocation0 (some SAFETY_FACTOR)
  let allocation2 := if jgt allocation1 cash then jfloor2 cash else allocation1
  if jle allocation2 (some 0) then .skip .safetyMarginExceeded
  else
    let notional0 := jfloor2 allocation2
    if jlt notional0 (some 1) then .skip .insufficientCash
    else
      let notional1 := if jgt notional0 cash then jfloor2 cash else notional0
      if jlt notional1 (some 1) then .skip .belowMinAfterAdjustment
      else .submit notional1

/-- `parseFloat((price * BUY_LIMIT_BUFFER).toFixed(5))`, App.js line 782. -/
def buyLimitPrice (price : ℚ) : ℚ := roundTo 5 (price * BUY_LIMIT_BUFFER)

/-- `Math.floor((notional / limit_price) * 1e6) / 1e6`, App.js line 783. -/
def buyQty (notional limitPrice : ℚ) : ℚ := floorTo 6 (notional / limitPrice)

/-! ### Backend constants and sizing (src/unnamed/part_001, trade.js) -/

def MIN_ORDER_NOTIONAL : ℚ := 1
def FEE_BUFFER : ℚ := 25 / 10000
def TARGET_PROFIT : ℚ := 5 / 10000
def TOTAL_MARKUP : ℚ := FEE_BUFFER + TARGET_PROFIT

/-- Backend `roundQty`: floor to Alpaca crypto precision (1e-6). -/
def roundQty (qty : ℚ) : ℚ := floorTo 6 qty

/-- Backend `roundPrice`, first revision: `Number(price).toFixed(2)`. -/
def roundPrice2 (price : ℚ) : ℚ := roundTo 2 price

/-- Backend `roundPrice`, second revision: `Number(price).toFixed(6)`. -/
def roundPrice6 (price : ℚ) : ℚ := roundTo 6 price

/-- Backend sell price: `roundPrice(avgPrice * (1 + TOTAL_MARKUP))`
(part_001 lines 82 and 195), using the first revision rounding. -/
def backendSellPrice (avgPrice : ℚ) : ℚ := roundPrice2 (avgPrice * (1 + TOTAL_MARKUP))

/-- A sized market buy: the notional logged and the quantity submitted. -/
structure MarketBuyPlan where
  notional : ℚ
  qty : ℚ
deriving DecidableEq

/-- Sizing of `placeMarketBuyThenSell` (part_001 lines 138 to 157):
10 percent of portfolio value, capped at cash, skipped below the minimum
notional; the quantity is the 1e-6 floor of notional over price.
`getAccountInfo` maps NaN fields to 0, so the inputs are plain rationals. -/
def marketBuySizing (portfolioValue cash price : ℚ) : Option MarketBuyPlan :=
  let calculatedAllocation := portfolioValue * (10 / 100)
  let notional := min calculatedAllocation cash
  if notional < MIN_ORDER_NOTIONAL then none
  else
    let qty := roundQty (notional / price)
    if qty ≤ 0 then none
    else some ⟨notional, qty⟩

/-! ### Frontend sell-side prices (`placeLimitSell`, App.js 522 to 536) -/

/-- `(Math.floor(livePrice * 1e5) / 1e5).toFixed(5)`: the sell limit price
is an unconditional floor of the live price at five decimals. -/
def sellLimitPrice (livePrice : ℚ) : ℚ := floorTo 5 livePrice

/-- `(basis * (1 - STOP_LOSS_PERCENT)).toFixed(5)`: the stop price rounds
to nearest at five decimals. -/
def sellStopPrice (basis : ℚ) : ℚ := roundTo 5 (basis * (1 - STOP_LOSS_PERCENT))

/-- `basis * SELL_TARGET_MULTIPLIER`, the gate a live price must exceed
before a limit sell is submitted (App.js 522). -/
def sellTargetPrice (basis : ℚ) : ℚ := basis * SELL_TARGET_MULTIPLIER

/-! ### The `placeOrder` pipeline (App.js 626 to 834)

Each remote call is an input: `Except Unit α` is the parsed response
(`Except.error` when the fetch failed or returned non-2xx where the source
treats that as a failure). -/

/-- Brokerage-reported position as parsed by `getPositionInfo`
(App.js 257 to 277). -/
structure Position where
  qty : ℚ
  basis : ℚ
  available : ℚ
deriving DecidableEq

/-- `getOpenOrders` (App.js 283 to 299): on any failure it returns the
empty list, so that, per the source comment, the trade logic continues. -/
def getOpenOrdersResult : Except Unit (List ℕ) → List ℕ
  | .error _ => []
  | .ok l => l

/-- `getPositionInfo` (App.js 257 to 277): returns null both when nothing
is held and when the request fails. -/
def getPositionResult : Except Unit (Option Position) → Option Position
  | .error _ => none
  | .ok p => p

/-- Outcome of one `placeOrder` invocation, up to order submission. -/
inductive PlaceOrderOutcome
  | cooldownSkip
  | openOrdersSkip
  | heldSkip
  | fetchError
  | sizingSkip (reason : SkipReason)
  | submitted (notional : JNum)
deriving DecidableEq

/-- The buy phase of `placeOrder` after the guards (App.js 659 to 780):
price fetch (throwing on failure, on falsy price and on NaN price),
account fetch (throwing on failure), then the sizing block.  A throw is
caught by the surrounding try/catch and nothing is submitted. -/
def placeOrderBuyPhase (priceFetch : Except Unit JNum)
    (accountFetch : Except Unit (JNum × JNum)) (slope : ℚ) : PlaceOrderOutcome :=
  match priceFetch with
  | .error _ => .fetchError
  | .ok price =>
    match price with
    | none => .fetchError
    | some p =>
      if p = 0 then .fetchError
      else
        match accountFetch with
        | .error _ => .fetchError
        | .ok (cash, equity) =>
          match placeOrderSizing cash equity slope with
          | .skip r => .sizingSkip r
          | .submit n => .submitted n

/-- `placeOrder` (App.js 626 to 834): cooldown guard, open-orders guard,
held-position guard (skip only when available times basis exceeds 1),
then the buy phase. -/
def placeOrder (onCooldown : Bool)
    (openOrdersFetch : Except Unit (List ℕ))
    (positionFetch : Except Unit (Option Position))
    (priceFetch : Except Unit JNum)
    (accountFetch : Except Unit (JNum × JNum))
    (slope : ℚ) : PlaceOrderOutcome :=
  if onCooldown then .cooldownSkip
  else
    let openOrders := getOpenOrdersResult openOrdersFetch
    if 0 < openOrders.length then .openOrdersSkip
    else
      match getPositionResult positionFetch with
      | some pos =>
        if 1 < pos.available * pos.basis then .heldSkip
        else placeOrderBuyPhase priceFetch accountFetch slope
      | none => placeOrderBuyPhase priceFetch accountFetch slope

/-! ### `verifyLimitBuyFilled` (App.js 336 to 416) -/

/-- Order status values relevant to the embedded control flow. -/
inductive OrderStatus
  | isNew
  | partiallyFilled
  | filled
  | canceled
deriving DecidableEq

/-- An entry in `pendingLimitOrders`: the limit buy id and its notional. -/
structure PendingOrder where
  orderId : ℕ
  notional : ℚ
deriving DecidableEq

/-- Externally visible effects of one `verifyLimitBuyFilled` run:
whether a cancel (DELETE) was issued for the pending order, the notional
of a market-buy resubmission when one was posted, and the state of
`pendingLimitOrders[symbol]` afterwards. -/
structure VerifyEffects where
  cancelRequested : Bool
  marketBuyNotional : Option ℚ
  pendingAfter : Option PendingOrder
deriving DecidableEq

/-- `verifyLimitBuyFilled` (App.js 336 to 416).  Inputs: the tracked
pending order, the status fetched for it (`Except.error` when that fetch
throws, in which case the source returns at once), the re-evaluated
signal validity computed from fresh MACD, RSI and trend data at lines
364 to 377 (`Except.error` when the refresh fetches fail), whether the
cancel DELETE throws, and the market-buy response (an order id on
success, `none` on a non-ok response, `Except.error` on a throw). -/
def verifyLimitBuyFilled (pending : Option PendingOrder)
    (statusFetch : Except Unit OrderStatus)
    (signalRefresh : Except Unit Bool)
    (cancelThrows : Bool)
    (buyResp : Except Unit (Option ℕ)) : VerifyEffects :=
  match pending with
  | none => ⟨false, none, none⟩
  | some p =>
    match statusFetch with
    | .error _ => ⟨false, none, some p⟩
    | .ok st =>
      if st = OrderStatus.filled then ⟨false, none, none⟩
      else
        match signalRefresh with
        | .error _ => ⟨false, none, some p⟩
        | .ok signalValid =>
          if signalValid then
            if cancelThrows then ⟨true, none, some p⟩
            else
              match buyResp with
              | .error _ => ⟨true, none, some p⟩
              | .ok (some _) => ⟨true, some p.notional, none⟩
              | .ok none => ⟨true, some p.notional, some p⟩
          else
            if cancelThrows then ⟨true, none, some p⟩
            else ⟨true, none, none⟩

/-! ### The backend fill-polling loop (part_001 lines 66 to 78 and 177 to 189) -/

/-- The slice of an Alpaca order record the polling loop inspects. -/
structure OrderRecord where
  status : OrderStatus
deriving DecidableEq

/-- Failure modes of the buy-fill wait: a transport error from the
get-order call (which the source rethrows), or the timeout error thrown
after the loop (message: Buy order not filled in time). -/
inductive BuyFillError
  | transport (code : ℕ)
  | notFilledInTime
deriving DecidableEq

/-- Result of the polling loop body: the last fetched record, or an
abort carrying the propagated transport error. -/
inductive PollLoopOut
  | done (r : OrderRecord)
  | aborted (e : BuyFillError)
deriving DecidableEq

/-- The body of `for (let i = 0; i < n; i++) { ... await sleep(3000) }`:
given the poll results (`Except.error code` when the get-order call
itself fails with HTTP status `code`), returns the loop outcome together
with the number of get-order calls made and the total milliseconds
slept.  A transport error aborts immediately (before any further sleep);
a filled status breaks out of the loop; otherwise the loop sleeps
3000 ms and continues. -/
def fillPollLoop (poll : ℕ → Except ℕ OrderRecord) :
    ℕ → ℕ → OrderRecord → PollLoopOut × ℕ × ℕ
  | 0, _, last => (.done last, 0, 0)
  | n + 1, i, _last =>
    match poll i with
    | .error code => (.aborted (.transport code), 1, 0)
    | .ok r =>
      if r.status = OrderStatus.filled then (.done r, 1, 0)
      else
        let rest := fillPollLoop poll n (i + 1) r
        (rest.1, rest.2.1 + 1, rest.2.2 + 3000)

/-- Final result of the wait: the filled record, or a failure. -/
inductive FillWaitResult
  | filledOk (r : OrderRecord)
  | failed (e : BuyFillError)
deriving DecidableEq

/-- The complete wait-for-fill fragment: 20 polls at a fixed 3000 ms
interval, then `if (filled.status !== filled) throw` the timeout error. -/
def waitForBuyFill (poll : ℕ → Except ℕ OrderRecord)
    (initial : OrderRecord) : FillWaitResult × ℕ × ℕ :=
  match fillPollLoop poll 20 0 initial with
  | (.aborted e, p, m) => (.failed e, p, m)
  | (.done r, p, m) =>
    if r.status = OrderStatus.filled then (.filledOk r, p, m)
    else (.failed .notFilledInTime, p, m)

/-! ### Interleaving model of two concurrent entry attempts (App.js 636 to 821)

A tick is one `placeOrder` run for a fixed symbol, reduced to its two
effectful segments: reading the open-orders list (line 637) and, when
that list was empty, submitting the buy order (line 797).  Between the
two segments the run is suspended at `await` points, so segments of two
runs interleave arbitrarily.  `brokerOpen` counts entry orders resting
at the brokerage for the symbol. -/

/-- Phase of one tick: not yet checked, checked (recording the observed
open-order count), submitted, or skipped by the open-orders guard. -/
inductive TickPhase
  | start
  | checked (observedOpen : ℕ)
  | submitted
  | skipped
deriving DecidableEq

/-- Shared state: resting entry orders at the brokerage plus two ticks. -/
structure RaceState where
  brokerOpen : ℕ
  tick1 : TickPhase
  tick2 : TickPhase
deriving DecidableEq

/-- Atomic actions of the two ticks. -/
inductive RaceAct
  | check1 | submit1 | skip1
  | check2 | submit2 | skip2
deriving DecidableEq

/-- One atomic step; `none` when the action is not enabled.  A tick may
submit only when its open-orders read observed zero orders, mirroring
`if (openOrders.length > 0) return` in the source. -/
def raceStep : RaceAct → RaceState → Option RaceState
  | .check1, s => match s.tick1 with
    | .start => some { s with tick1 := .checked s.brokerOpen }
    | _ => none
  | .submit1, s => match s.tick1 with
    | .checked 0 => some { s with brokerOpen := s.brokerOpen + 1, tick1 := .submitted }
    | _ => none
  | .skip1, s => match s.tick1 with
    | .checked (_ + 1) => some { s with tick1 := .skipped }
    | _ => none
  | .check2, s => match s.tick2 with
    | .start => some { s with tick2 := .checked s.brokerOpen }
    | _ => none
  | .submit2, s => match s.tick2 with
    | .checked 0 => some { s with brokerOpen := s.brokerOpen + 1, tick2 := .submitted }
    | _ => none
  | .skip2, s => match s.tick2 with
    | .checked (_ + 1) => some { s with tick2 := .skipped }
    | _ => none

/-- Run a sequence of atomic actions; fails if any is not enabled. -/
def raceRun : List RaceAct → RaceState → Option RaceState
  | [], s => some s
  | a :: rest, s => (raceStep a s).bind (raceRun rest)

/-- Initial state: no resting orders, both ticks about to run. -/
def raceInit : RaceState := ⟨0, .start, .start⟩

/-! ## Helper lemmas -/

@[simp] theorem jmul_some (a b : ℚ) : jmul (some a) (some b) = some (a * b) := rfl

@[simp] theorem jsub_some (a b : ℚ) : jsub (some a) (some b) = some (a - b) := rfl

@[simp] theorem jmin_some (a b : ℚ) : jmin (some a) (some b) = some (min a b) := rfl

@[simp] theorem jle_some (a b : ℚ) : jle (some a) (some b) = decide (a ≤ b) := rfl

@[simp] theorem jlt_some (a b : ℚ) : jlt (some a) (some b) = decide (a < b) := rfl

@[simp] theorem jgt_some (a b : ℚ) : jgt (some a) (some b) = decide (b < a) := rfl

@[simp] theorem jfloor2_some (a : ℚ) :
    jfloor2 (some a) = some ((⌊a * 100⌋ : ℚ) / 100) := rfl

theorem floor_scaled_le (a : ℚ) : (⌊a * 100⌋ : ℚ) / 100 ≤ a := by
  rw [div_le_iff₀ (by norm_num : (0:ℚ) < 100)]
  exact Int.floor_le (a * 100)

theorem floorTo_le (k : ℕ) (x : ℚ) : floorTo k x ≤ x := by
  have hk : (0:ℚ) < (10:ℚ) ^ k := by positivity
  rw [floorTo, div_le_iff₀ hk]
  exact Int.floor_le (x * (10:ℚ) ^ k)

theorem sf_eq : SAFETY_FACTOR = 97/100 := by
  norm_num [SAFETY_FACTOR, PRICE_COLLAR_PERCENT, EXTRA_BUFFER]

theorem roundTo_gt (k : ℕ) (x : ℚ) : x - 1 / (2 * 10 ^ k) < roundTo k x := by
  have hk : (0:ℚ) < (10:ℚ) ^ k := by positivity
  rw [roundTo, lt_div_iff₀ hk, round_eq]
  have hf := Int.lt_floor_add_one (x * (10:ℚ) ^ k + 1/2)
  have expand : (x - 1/(2 * 10 ^ k)) * (10:ℚ) ^ k = x * (10:ℚ) ^ k - 1/2 := by
    field_simp
    ring
  rw [expand]
  push_cast at hf ⊢
  linarith

theorem roundTo_le_ub (k : ℕ) (x : ℚ) : roundTo k x ≤ x + 1 / (2 * 10 ^ k) := by
  have hk : (0:ℚ) < (10:ℚ) ^ k := by positivity
  rw [roundTo, div_le_iff₀ hk, round_eq]
  have hf := Int.floor_le (x * (10:ℚ) ^ k + 1/2)
  have expand : (x + 1/(2 * 10 ^ k)) * (10:ℚ) ^ k = x * (10:ℚ) ^ k + 1/2 := by
    field_simp
    ring
  rw [expand]
  exact hf

theorem roundTo_abs_sub (k : ℕ) (x : ℚ) : |roundTo k x - x| ≤ 1 / (2 * 10 ^ k) := by
  rw [abs_le]
  constructor
  · linarith [roundTo_gt k x]
  · linarith [roundTo_le_ub k x]

/-- When `placeOrder` reaches submission on numeric account data, the
submitted notional is a plain rational bounded by
(cash minus margin) times the safety factor, and is a two-decimal floor
of the allocation it came from. -/
theorem placeOrder_sizing_submit_bound (c e s : ℚ) (n : JNum)
    (h : placeOrderSizing (some c) (some e) s = .submit n) :
    ∃ q : ℚ, n = some q ∧ q ≤ (c - SAFETY_MARGIN) * SAFETY_FACTOR ∧
      ∃ a : ℚ, q = (⌊a * 100⌋ : ℚ) / 100 ∧ q ≤ a := by
  simp only [placeOrderSizing, jmul_some, jsub_some, jmin_some, jgt_some, jle_some,
    jlt_some, jfloor2_some, decide_eq_true_eq] at h
  set r : ℚ := (if (5:ℚ)/100 ≤ s then 5/100 else 10/100) with hrdef
  set a0 : ℚ := min (e * r) (c - SAFETY_MARGIN) with ha0
  set a1 : ℚ := a0 * SAFETY_FACTOR with ha1
  have ha1le : a1 ≤ (c - SAFETY_MARGIN) * SAFETY_FACTOR :=
    mul_le_mul_of_nonneg_right (min_le_right _ _)
      (by rw [sf_eq]; norm_num)
  by_cases hc1 : c < a1
  · rw [if_pos hc1] at h
    simp only [jle_some, jlt_some, jgt_some, jfloor2_some, decide_eq_true_eq] at h
    by_cases hc2 : ((⌊c * 100⌋ : ℚ) / 100) ≤ 0
    · rw [if_pos hc2] at h
      exact absurd h (by simp)
    · exfalso
      push_neg at hc2
      have h0 : (0:ℤ) < ⌊c * 100⌋ := by
        by_contra hh
        push_neg at hh
        have : ((⌊c * 100⌋ : ℤ) : ℚ) ≤ 0 := by exact_mod_cast hh
        nlinarith
      have hcge : ((1:ℤ) : ℚ) ≤ c * 100 := by
        exact_mod_cast Int.le_floor.mp h0
      rw [sf_eq, SAFETY_MARGIN] at ha1le
      push_cast at hcge
      linarith
  · rw [if_neg hc1] at h
    simp only [jle_some, jlt_some, jgt_some, jfloor2_some, decide_eq_true_eq] at h
    by_cases hc2 : a1 ≤ 0
    · rw [if_pos hc2] at h
      exact absurd h (by simp)
    · rw [if_neg hc2] at h
      by_cases hc3 : ((⌊a1 * 100⌋ : ℚ) / 100) < 1
      · rw [if_pos hc3] at h
        exact absurd h (by simp)
      · rw [if_neg hc3] at h
        by_cases hc4 : c < ((⌊a1 * 100⌋ : ℚ) / 100)
        · exfalso
          have hfl := floor_scaled_le a1
          rw [sf_eq, SAFETY_MARGIN] at ha1le
          push_neg at hc3
          linarith
        · rw [if_neg hc4] at h
          simp only [jlt_some, decide_eq_true_eq] at h
          rw [if_neg hc3] at h
          injection h with hv
          refine ⟨(⌊a1 * 100⌋ : ℚ) / 100, hv.symm, ?_, a1, rfl, floor_scaled_le a1⟩
          exact le_trans (floor_scaled_le a1) ha1le

/-- Characterisation of a successful `marketBuySizing`: the notional is
exactly min of the 10 percent allocation and cash (not floored, not
reduced by any margin), and the quantity is its 1e-6 floor over price. -/
theorem marketBuy_sizing_chars (pv cash price : ℚ) (plan : MarketBuyPlan)
    (h : marketBuySizing pv cash price = some plan) :
    plan.notional = min (pv * (10/100)) cash ∧ plan.notional ≤ cash ∧
    plan.qty = floorTo 6 (plan.notional / price) ∧ plan.qty ≤ plan.notional / price := by
  unfold marketBuySizing at h
  by_cases h1 : min (pv * (10/100)) cash < MIN_ORDER_NOTIONAL
  · rw [if_pos h1] at h
    exact absurd h (by simp)
  · rw [if_neg h1] at h
    by_cases h2 : roundQty (min (pv * (10/100)) cash / price) ≤ 0
    · rw [if_pos h2] at h
      exact absurd h (by simp)
    · rw [if_neg h2] at h
      obtain rfl := Option.some.inj h
      exact ⟨rfl, min_le_right _ _, rfl, floorTo_le 6 _⟩

theorem fillPollLoop_step_err (poll : ℕ → Except ℕ OrderRecord) (n i : ℕ)
    (last : OrderRecord) (code : ℕ) (hp : poll i = Except.error code) :
    fillPollLoop poll (n + 1) i last = (.aborted (.transport code), 1, 0) := by
  simp [fillPollLoop, hp]

theorem fillPollLoop_step_filled (poll : ℕ → Except ℕ OrderRecord) (n i : ℕ)
    (last r : OrderRecord) (hp : poll i = Except.ok r)
    (hs : r.status = OrderStatus.filled) :
    fillPollLoop poll (n + 1) i last = (.done r, 1, 0) := by
  simp [fillPollLoop, hp, hs]

theorem fillPollLoop_step_ok (poll : ℕ → Except ℕ OrderRecord) (n i : ℕ)
    (last r : OrderRecord) (hp : poll i = Except.ok r)
    (hs : r.status ≠ OrderStatus.filled) :
    fillPollLoop poll (n + 1) i last =
      ((fillPollLoop poll n (i + 1) r).1, (fillPollLoop poll n (i + 1) r).2.1 + 1,
       (fillPollLoop poll n (i + 1) r).2.2 + 3000) := by
  simp [fillPollLoop, hp, hs]

theorem fillPollLoop_bounds (poll : ℕ → Except ℕ OrderRecord) :
    ∀ (n i : ℕ) (last : OrderRecord),
      (fillPollLoop poll n i last).2.1 ≤ n ∧
      (fillPollLoop poll n i last).2.2 ≤ 3000 * n := by
  intro n
  induction n with
  | zero => intro i last; simp [fillPollLoop]
  | succ m ih =>
    intro i last
    rcases hp : poll i with code | r
    · rw [fillPollLoop_step_err poll m i last code hp]
      simp
    · by_cases hs : r.status = OrderStatus.filled
      · rw [fillPollLoop_step_filled poll m i last r hp hs]
        simp
      · rw [fillPollLoop_step_ok poll m i last r hp hs]
        have hm := ih (i + 1) r
        constructor
        · simp only []
          omega
        · simp only []
          omega

theorem fillPollLoop_all_unfilled (poll : ℕ → Except ℕ OrderRecord) :
    ∀ (n i : ℕ) (last : OrderRecord), 0 < n →
      (∀ k, k < n → ∃ r, poll (i + k) = Except.ok r ∧ r.status ≠ OrderStatus.filled) →
      ∃ r, fillPollLoop poll n i last = (.done r, n, 3000 * n) ∧
        r.status ≠ OrderStatus.filled := by
  intro n
  induction n with
  | zero => intro i last h; omega
  | succ m ih =>
    intro i last _ hall
    obtain ⟨r0, hp0, hs0⟩ := hall 0 (Nat.succ_pos m)
    rw [Nat.add_zero] at hp0
    cases m with
    | zero =>
      refine ⟨r0, ?_, hs0⟩
      rw [fillPollLoop_step_ok poll 0 i last r0 hp0 hs0]
      simp [fillPollLoop]
    | succ m2 =>
      obtain ⟨r, hr, hrs⟩ := ih (i + 1) r0 (Nat.succ_pos m2)
        (fun k hk => by
          obtain ⟨r2, hp2, hs2⟩ := hall (k + 1) (by omega)
          exact ⟨r2, by rwa [show i + 1 + k = i + (k + 1) by omega], hs2⟩)
      refine ⟨r, ?_, hrs⟩
      rw [fillPollLoop_step_ok poll (m2 + 1) i last r0 hp0 hs0, hr]
      simp only [Prod.mk.injEq]
      refine ⟨trivial, trivial, by ring⟩

theorem fillPollLoop_aborts (poll : ℕ → Except ℕ OrderRecord) :
    ∀ (n i : ℕ) (last : OrderRecord) (j code : ℕ), j < n →
      poll (i + j) = Except.error code →
      (∀ k, k < j → ∃ r, poll (i + k) = Except.ok r ∧ r.status ≠ OrderStatus.filled) →
      fillPollLoop poll n i last = (.aborted (.transport code), j + 1, 3000 * j) := by
  intro n
  induction n with
  | zero => intro i last j code h; omega
  | succ m ih =>
    intro i last j code hj hpj hall
    cases j with
    | zero =>
      rw [Nat.add_zero] at hpj
      rw [fillPollLoop_step_err poll m i last code hpj]
    | succ j2 =>
      obtain ⟨r0, hp0, hs0⟩ := hall 0 (Nat.succ_pos j2)
      rw [Nat.add_zero] at hp0
      cases m with
      | zero => omega
      | succ m2 =>
        have hrec := ih (i + 1) r0 j2 code (by omega)
          (by rwa [show i + 1 + j2 = i + (j2 + 1) by omega])
          (fun k hk => by
            obtain ⟨r2, hp2, hs2⟩ := hall (k + 1) (by omega)
            exact ⟨r2, by rwa [show i + 1 + k = i + (k + 1) by omega], hs2⟩)
        rw [fillPollLoop_step_ok poll (m2 + 1) i last r0 hp0 hs0, hrec]
        simp only [Prod.mk.injEq]
        refine ⟨trivial, trivial, by ring⟩

theorem buyPhase_priceErr (af : Except Unit (JNum × JNum)) (s : ℚ) :
    placeOrderBuyPhase (Except.error ()) af s = .fetchError := rfl

theorem buyPhase_accountErr (pf : Except Unit JNum) (s : ℚ) (n : JNum) :
    placeOrderBuyPhase pf (Except.error ()) s ≠ .submitted n := by
  intro h
  rcases pf with u | v
  · simp [placeOrderBuyPhase] at h
  · rcases v with _ | p
    · simp [placeOrderBuyPhase] at h
    · by_cases hp : p = 0
      · simp [placeOrderBuyPhase, hp] at h
      · simp [placeOrderBuyPhase, hp] at h

/-- A submission by `placeOrder` always comes out of its buy phase: the
guards themselves never submit. -/
theorem placeOrder_submit_from_buyPhase (oc : Bool) (oof : Except Unit (List ℕ))
    (posF : Except Unit (Option Position)) (pf : Except Unit JNum)
    (af : Except Unit (JNum × JNum)) (s : ℚ) (n : JNum)
    (h : placeOrder oc oof posF pf af s = .submitted n) :
    placeOrderBuyPhase pf af s = .submitted n := by
  cases oc with
  | true => simp [placeOrder] at h
  | false =>
    simp only [placeOrder, Bool.false_eq_true, if_false] at h
    by_cases ho : 0 < (getOpenOrdersResult oof).length
    · rw [if_pos ho] at h
      exact absurd h (by simp)
    · rw [if_neg ho] at h
      cases hp : getPositionResult posF with
      | none => rw [hp] at h; exact h
      | some pos =>
        rw [hp] at h
        have h2 : (if 1 < pos.available * pos.basis then PlaceOrderOutcome.heldSkip
            else placeOrderBuyPhase pf af s) = PlaceOrderOutcome.submitted n := h
        by_cases hb : 1 < pos.available * pos.basis
        · rw [if_pos hb] at h2
          exact absurd h2 (by simp)
        · rw [if_neg hb] at h2
          exact h2

end BorB

namespace BorB

/-! ## Claim theorems -/

/-- Claim C1, counterexample: with portfolio value 1000, cash 50 and
price 1, the backend `placeMarketBuyThenSell` sizes a notional of 50,
which exceeds (cash minus the fixed safety margin) times
(1 minus collar minus buffer) = 47.53 — the claimed bound does not hold
for the backend market buy. -/
theorem market_buy_margin_violation_c1_cex :
    marketBuySizing 1000 50 1 = some ⟨50, 50⟩
  ∧ (50 - SAFETY_MARGIN) * SAFETY_FACTOR < 50 := by
  constructor
  · norm_num [marketBuySizing, MIN_ORDER_NOTIONAL, roundQty, floorTo]
  · norm_num [SAFETY_MARGIN, SAFETY_FACTOR, PRICE_COLLAR_PERCENT, EXTRA_BUFFER]

/-- Claim C1, amended: the frontend `placeOrder` submission obeys the
bound — its notional is a plain number at most (cash minus the one
dollar margin) times the 0.97 safety factor, and equals a two-decimal
floor of the allocation, never rounded up.  The backend
`placeMarketBuyThenSell` instead requests exactly
min(0.1 times portfolio, cash): bounded by cash but with no margin or
collar reduction and no flooring of the notional; only its quantity is
floored at 1e-6 precision. -/
theorem entry_notional_bounds_c1 :
    (∀ (c e s : ℚ) (n : JNum), placeOrderSizing (some c) (some e) s = .submit n →
       ∃ q : ℚ, n = some q ∧ q ≤ (c - SAFETY_MARGIN) * SAFETY_FACTOR ∧
         ∃ a : ℚ, q = (⌊a * 100⌋ : ℚ) / 100 ∧ q ≤ a)
  ∧ (∀ (pv cash price : ℚ) (plan : MarketBuyPlan),
       marketBuySizing pv cash price = some plan →
       plan.notional = min (pv * (10/100)) cash ∧ plan.notional ≤ cash ∧
       plan.qty = floorTo 6 (plan.notional / price) ∧ plan.qty ≤ plan.notional / price) :=
  ⟨placeOrder_sizing_submit_bound, marketBuy_sizing_chars⟩

/-- Claim C1, witness: at cash 100, equity 100, slope 0 the submitted
notional 9.70 satisfies the bound, and the backend plan at portfolio
1000, cash 50 satisfies its cash cap. -/
theorem entry_notional_bounds_c1_witness :
    (97/10 : ℚ) ≤ (100 - SAFETY_MARGIN) * SAFETY_FACTOR ∧ ((50:ℚ) ≤ 50) := by
  constructor
  · obtain ⟨q, hq, hle, -⟩ := entry_notional_bounds_c1.1 100 100 0 (some (97/10))
      (by norm_num [placeOrderSizing, jmul, jmin, jsub, jgt, jlt, jle, jfloor2, jfloor,
        SAFETY_MARGIN, SAFETY_FACTOR, PRICE_COLLAR_PERCENT, EXTRA_BUFFER])
    have hq2 : q = 97/10 := (Option.some.inj hq).symm
    exact hq2 ▸ hle
  · have h := entry_notional_bounds_c1.2 1000 50 1 ⟨50, 50⟩
      (by norm_num [marketBuySizing, MIN_ORDER_NOTIONAL, roundQty, floorTo])
    exact h.2.1

/-- Claim C2, code bug witnessed: when the parsed cash field is NaN
(a non-numeric account value), every guard comparison in the sizing
block of `placeOrder` is false, so the code neither skips nor caps and
submits a buy whose notional is NaN — contradicting the claim that the
sizing never produces a NaN notional and skips when it cannot size. -/
theorem nan_cash_submits_nan_notional_c2 :
    placeOrderSizing none (some 100) 0 = SizeResult.submit none
  ∧ placeOrder false (Except.ok []) (Except.ok none) (Except.ok (some 10))
      (Except.ok (none, some 100)) 0 = PlaceOrderOutcome.submitted none :=
  ⟨rfl, rfl⟩

/-- Claim C3, counterexample: the interleaving check1, check2, submit1,
submit2 of two concurrent `placeOrder` runs for one symbol is accepted
by the step relation and ends with two entry orders resting at the
brokerage — more than the single pending order the claim allows. -/
theorem concurrent_double_submit_c3_cex :
    raceRun [RaceAct.check1, RaceAct.check2, RaceAct.submit1, RaceAct.submit2] raceInit
      = some ⟨2, TickPhase.submitted, TickPhase.submitted⟩
  ∧ 1 < RaceState.brokerOpen ⟨2, TickPhase.submitted, TickPhase.submitted⟩ := by
  constructor
  · decide
  · decide

/-- Claim C3, amended: two concurrent ticks for one symbol are not
serialized.  When both open-orders checks read before either
submission, both ticks submit and two entry orders rest at the
brokerage; a tick whose open-orders check observes an already existing
order cannot submit — the guard prevents duplicates only in the
serialized interleaving. -/
theorem race_open_orders_guard_c3 (s s2 : RaceState) :
    (raceStep RaceAct.check2 s = some s2 → 0 < s.brokerOpen →
       raceStep RaceAct.submit2 s2 = none)
  ∧ (raceStep RaceAct.check1 s = some s2 → 0 < s.brokerOpen →
       raceStep RaceAct.submit1 s2 = none)
  ∧ raceRun [RaceAct.check1, RaceAct.check2, RaceAct.submit1, RaceAct.submit2] raceInit
      = some ⟨2, TickPhase.submitted, TickPhase.submitted⟩ := by
  refine ⟨?_, ?_, by decide⟩
  · intro h2 hpos
    cases ht : s.tick2 with
    | start =>
      simp only [raceStep, ht] at h2
      obtain rfl := Option.some.inj h2
      obtain ⟨b, hb⟩ : ∃ b, s.brokerOpen = b + 1 := ⟨s.brokerOpen - 1, by omega⟩
      simp only [raceStep, hb]
    | checked k => simp [raceStep, ht] at h2
    | submitted => simp [raceStep, ht] at h2
    | skipped => simp [raceStep, ht] at h2
  · intro h1 hpos
    cases ht : s.tick1 with
    | start =>
      simp only [raceStep, ht] at h1
      obtain rfl := Option.some.inj h1
      obtain ⟨b, hb⟩ : ∃ b, s.brokerOpen = b + 1 := ⟨s.brokerOpen - 1, by omega⟩
      simp only [raceStep, hb]
    | checked k => simp [raceStep, ht] at h1
    | submitted => simp [raceStep, ht] at h1
    | skipped => simp [raceStep, ht] at h1

/-- Claim C3, witness: with one order already resting, a tick that has
just checked cannot submit. -/
theorem race_open_orders_guard_c3_witness :
    raceStep RaceAct.submit2 ⟨1, TickPhase.submitted, TickPhase.checked 1⟩ = none :=
  (race_open_orders_guard_c3 ⟨1, .submitted, .start⟩ ⟨1, .submitted, .checked 1⟩).1
    (by decide) (by decide)

/-- Claim C4, counterexample: with both the open-orders fetch and the
position fetch failing, `placeOrder` still submits an entry order — the
failed guard reads are replaced by optimistic defaults — refuting the
claim that a guard failure skips the cycle with no submission. -/
theorem guard_failure_still_submits_c4_cex :
    placeOrder false (Except.error ()) (Except.error ()) (Except.ok (some 10))
      (Except.ok (some 100, some 100)) 0 = PlaceOrderOutcome.submitted (some (97/10)) := by
  norm_num [placeOrder, placeOrderBuyPhase, getOpenOrdersResult, getPositionResult,
    placeOrderSizing, jmul, jmin, jsub, jgt, jlt, jle, jfloor2, jfloor,
    SAFETY_MARGIN, SAFETY_FACTOR, PRICE_COLLAR_PERCENT, EXTRA_BUFFER]

/-- Claim C4, amended: a failed open-orders read or position read is
treated exactly as the optimistic default (no open orders, no position)
and the cycle continues; only a failed price fetch or account fetch
aborts the cycle for the symbol with nothing submitted. -/
theorem guard_failure_optimistic_default_c4 (oc : Bool) (oof : Except Unit (List ℕ))
    (posF : Except Unit (Option Position)) (pf : Except Unit JNum)
    (af : Except Unit (JNum × JNum)) (s : ℚ) :
    placeOrder oc (Except.error ()) posF pf af s = placeOrder oc (Except.ok []) posF pf af s
  ∧ placeOrder oc oof (Except.error ()) pf af s = placeOrder oc oof (Except.ok none) pf af s
  ∧ (∀ n, placeOrder oc oof posF (Except.error ()) af s ≠ .submitted n)
  ∧ (∀ n, placeOrder oc oof posF pf (Except.error ()) s ≠ .submitted n) := by
  refine ⟨rfl, rfl, ?_, ?_⟩
  · intro n h
    have hb := placeOrder_submit_from_buyPhase oc oof posF (Except.error ()) af s n h
    rw [buyPhase_priceErr] at hb
    exact absurd hb (by simp)
  · intro n h
    have hb := placeOrder_submit_from_buyPhase oc oof posF pf (Except.error ()) s n h
    exact buyPhase_accountErr pf s n hb

/-- Claim C4, witness: concrete instances of the optimistic-default
equality and of the no-submission fact under a failed price fetch. -/
theorem guard_failure_optimistic_default_c4_witness :
    placeOrder false (Except.error ()) (Except.ok none) (Except.ok (some 10))
        (Except.ok (some 100, some 100)) 0
      = placeOrder false (Except.ok []) (Except.ok none) (Except.ok (some 10))
        (Except.ok (some 100, some 100)) 0
  ∧ placeOrder false (Except.ok []) (Except.ok none) (Except.error ())
        (Except.ok (some 100, some 100)) 0 ≠ PlaceOrderOutcome.submitted (some 5) := by
  have h := guard_failure_optimistic_default_c4 false (Except.ok []) (Except.ok none)
    (Except.ok (some 10)) (Except.ok (some 100, some 100)) 0
  exact ⟨h.1, h.2.2.1 (some 5)⟩

/-- Claim C5, confirmed: when the pending limit buy is still unfilled at
verification time, an invalid re-evaluated signal leads to cancel plus
cleared pending state with no market buy submitted, and a valid signal
leads to cancel plus a market-buy resubmission carrying exactly the
pending notional. -/
theorem verify_unfilled_cancel_or_market_c5 (p : PendingOrder) (st : OrderStatus)
    (h : st ≠ OrderStatus.filled) (resp : Option ℕ) :
    verifyLimitBuyFilled (some p) (Except.ok st) (Except.ok false) false (Except.ok resp)
      = ⟨true, none, none⟩
  ∧ (verifyLimitBuyFilled (some p) (Except.ok st) (Except.ok true) false
      (Except.ok resp)).cancelRequested = true
  ∧ (verifyLimitBuyFilled (some p) (Except.ok st) (Except.ok true) false
      (Except.ok resp)).marketBuyNotional = some p.notional := by
  refine ⟨?_, ?_, ?_⟩ <;> cases resp <;> simp [verifyLimitBuyFilled, h]

/-- Claim C5, witness: a concrete pending order with an unfilled status
is cancelled and cleared on signal loss, and resubmits its notional when
the signal is still valid. -/
theorem verify_unfilled_cancel_or_market_c5_witness :
    verifyLimitBuyFilled (some ⟨7, 5⟩) (Except.ok OrderStatus.isNew) (Except.ok false) false
        (Except.ok (some 9)) = ⟨true, none, none⟩
  ∧ (verifyLimitBuyFilled (some ⟨7, 5⟩) (Except.ok OrderStatus.isNew) (Except.ok true) false
        (Except.ok (some 9))).marketBuyNotional = some 5 := by
  have h := verify_unfilled_cancel_or_market_c5 ⟨7, 5⟩ OrderStatus.isNew (by decide) (some 9)
  exact ⟨h.1, h.2.2⟩

/-- Claim C6, counterexample: at basis 0.0001 the backend sell price
(two-decimal rounding of basis times 1.003) is 0, strictly below basis,
and the stop price (five-decimal rounding of basis times 0.975) equals
basis — neither strict inequality of the claim holds. -/
theorem exit_prices_tiny_basis_c6_cex :
    backendSellPrice (1/10000) < 1/10000
  ∧ sellStopPrice (1/10000) = 1/10000 := by
  constructor
  · norm_num [backendSellPrice, roundPrice2, roundTo, TOTAL_MARKUP, FEE_BUFFER,
      TARGET_PROFIT, round_eq]
  · norm_num [sellStopPrice, roundTo, STOP_LOSS_PERCENT, round_eq]

/-- Claim C6, amended: the strict price inequalities hold once the
markup, respectively the stop fraction, outweighs half of the rounding
quantum: basis times markup at least 1/200 puts the sell limit strictly
above basis, and basis times stop fraction above 1/200000 puts the stop
strictly below basis. -/
theorem exit_prices_bounds_c6 (basis : ℚ) (_pos : 0 < basis) :
    ((1:ℚ)/200 ≤ basis * TOTAL_MARKUP → basis < backendSellPrice basis)
  ∧ ((1:ℚ)/200000 < basis * STOP_LOSS_PERCENT → sellStopPrice basis < basis) := by
  have hTM : TOTAL_MARKUP = 3/1000 := by
    norm_num [TOTAL_MARKUP, FEE_BUFFER, TARGET_PROFIT]
  have hSL : STOP_LOSS_PERCENT = 1/40 := by norm_num [STOP_LOSS_PERCENT]
  constructor
  · intro hm
    have hg := roundTo_gt 2 (basis * (1 + TOTAL_MARKUP))
    rw [hTM] at hm hg
    unfold backendSellPrice roundPrice2
    rw [hTM]
    have h200 : (1:ℚ)/(2 * 10 ^ 2) = 1/200 := by norm_num
    rw [h200] at hg
    nlinarith
  · intro hm
    have hg := roundTo_le_ub 5 (basis * (1 - STOP_LOSS_PERCENT))
    rw [hSL] at hm hg
    unfold sellStopPrice
    rw [hSL]
    have hq : (1:ℚ)/(2 * 10 ^ 5) = 1/200000 := by norm_num
    rw [hq] at hg
    nlinarith

/-- Claim C6, witness: at basis 2 both conditions hold and both strict
inequalities follow. -/
theorem exit_prices_bounds_c6_witness :
    (2:ℚ) < backendSellPrice 2 ∧ sellStopPrice 2 < 2 := by
  have h := exit_prices_bounds_c6 2 (by norm_num)
  exact ⟨h.1 (by norm_num [TOTAL_MARKUP, FEE_BUFFER, TARGET_PROFIT]),
         h.2 (by norm_num [STOP_LOSS_PERCENT])⟩

/-- Claim C7, confirmed: the fill wait makes at most 20 polls and sleeps
at most 60000 ms; if all 20 polls return an unfilled order it fails with
the distinct timeout error after exactly 20 polls and 60 seconds of
sleep; a transport error at poll j aborts the wait after j + 1 polls and
propagates as a transport failure, which is never the timeout error. -/
theorem fill_wait_bounded_c7 (poll : ℕ → Except ℕ OrderRecord) (initial : OrderRecord) :
    ((waitForBuyFill poll initial).2.1 ≤ 20 ∧ (waitForBuyFill poll initial).2.2 ≤ 60000)
  ∧ ((∀ k, k < 20 → ∃ r, poll k = Except.ok r ∧ r.status ≠ OrderStatus.filled) →
      waitForBuyFill poll initial = (.failed .notFilledInTime, 20, 60000))
  ∧ (∀ j code, j < 20 → poll j = Except.error code →
      (∀ k, k < j → ∃ r, poll k = Except.ok r ∧ r.status ≠ OrderStatus.filled) →
      waitForBuyFill poll initial = (.failed (.transport code), j + 1, 3000 * j)
        ∧ BuyFillError.transport code ≠ BuyFillError.notFilledInTime) := by
  refine ⟨?_, ?_, ?_⟩
  · have hb := fillPollLoop_bounds poll 20 0 initial
    unfold waitForBuyFill
    rcases hout : fillPollLoop poll 20 0 initial with ⟨out, p, m⟩
    rw [hout] at hb
    cases out with
    | aborted e =>
      simp only []
      exact ⟨le_trans hb.1 (by norm_num), le_trans hb.2 (by norm_num)⟩
    | done r =>
      by_cases hs : r.status = OrderStatus.filled
      · simp only [if_pos hs]
        exact ⟨le_trans hb.1 (by norm_num), le_trans hb.2 (by norm_num)⟩
      · simp only [if_neg hs]
        exact ⟨le_trans hb.1 (by norm_num), le_trans hb.2 (by norm_num)⟩
  · intro hall
    obtain ⟨r, hr, hrs⟩ := fillPollLoop_all_unfilled poll 20 0 initial (by norm_num)
      (fun k hk => by simpa using hall k (by omega))
    unfold waitForBuyFill
    rw [hr]
    simp [hrs]
  · intro j code hj hpj hall
    have hr := fillPollLoop_aborts poll 20 0 initial j code hj (by simpa using hpj)
      (fun k hk => by simpa using hall k (by omega))
    unfold waitForBuyFill
    rw [hr]
    exact ⟨rfl, by simp⟩

/-- Claim C7, witness: a poll stream that never fills ends in the
timeout failure after 20 polls and 60000 ms of sleep. -/
theorem fill_wait_bounded_c7_witness :
    waitForBuyFill (fun _ => Except.ok ⟨OrderStatus.isNew⟩) ⟨OrderStatus.isNew⟩
      = (FillWaitResult.failed BuyFillError.notFilledInTime, 20, 60000) :=
  (fill_wait_bounded_c7 (fun _ => Except.ok ⟨OrderStatus.isNew⟩) ⟨OrderStatus.isNew⟩).2.1
    (fun k _ => ⟨⟨OrderStatus.isNew⟩, rfl, by decide⟩)

/-- Claim C8, counterexample: at price 1.00101 the buy limit price
(toFixed with five decimals, a nearest rounding) exceeds the unrounded
product, so buy-side price rounding is not a floor; and the sell limit
price of live price 1.000006 is strictly below both the unrounded value
and its nearest five-decimal rounding, so sell-side limit rounding is an
unconditional floor, not a nearest rounding. -/
theorem rounding_sides_swapped_c8_cex :
    (100101:ℚ)/100000 * BUY_LIMIT_BUFFER < buyLimitPrice (100101/100000)
  ∧ sellLimitPrice (1000006/1000000) < roundTo 5 (1000006/1000000)
  ∧ sellLimitPrice (1000006/1000000) < 1000006/1000000 := by
  refine ⟨?_, ?_, ?_⟩
  · norm_num [buyLimitPrice, roundTo, BUY_LIMIT_BUFFER, round_eq]
  · norm_num [sellLimitPrice, floorTo, roundTo, round_eq]
  · norm_num [sellLimitPrice, floorTo]

/-- Claim C8, amended: the buy limit price is a nearest rounding, within
half a quantum of the unrounded product and possibly above it; the sell
limit price is an unconditional floor of the live price; the buy-side
quantity is floored; the stop price and the backend sell price are
nearest roundings within half a quantum. -/
theorem rounding_sides_actual_c8 (price live n lp basis avg : ℚ) :
    |buyLimitPrice price - price * BUY_LIMIT_BUFFER| ≤ 1/200000
  ∧ sellLimitPrice live ≤ live
  ∧ buyQty n lp ≤ n / lp
  ∧ |sellStopPrice basis - basis * (1 - STOP_LOSS_PERCENT)| ≤ 1/200000
  ∧ |backendSellPrice avg - avg * (1 + TOTAL_MARKUP)| ≤ 1/200 := by
  refine ⟨?_, floorTo_le 5 live, floorTo_le 6 _, ?_, ?_⟩
  · have h := roundTo_abs_sub 5 (price * BUY_LIMIT_BUFFER)
    have hq : (1:ℚ)/(2 * 10 ^ 5) = 1/200000 := by norm_num
    rw [hq] at h
    exact h
  · have h := roundTo_abs_sub 5 (basis * (1 - STOP_LOSS_PERCENT))
    have hq : (1:ℚ)/(2 * 10 ^ 5) = 1/200000 := by norm_num
    rw [hq] at h
    exact h
  · have h := roundTo_abs_sub 2 (avg * (1 + TOTAL_MARKUP))
    have hq : (1:ℚ)/(2 * 10 ^ 2) = 1/200 := by norm_num
    rw [hq] at h
    exact h

/-- Claim C9, counterexample: with cash 100, equity 100 and slope below
the threshold, the sizing block submits a notional of 9.70, which
differs from the claimed approximately 8.73 by 0.97 — the fixed margin
is applied to cash inside the min, not subtracted from the target
allocation. -/
theorem scenario_a_not_873_c9_cex :
    placeOrderSizing (some 100) (some 100) 0 = SizeResult.submit (some (97/10))
  ∧ (1/2 : ℚ) < |(97/10 : ℚ) - 873/100| := by
  constructor
  · norm_num [placeOrderSizing, jmul, jmin, jsub, jgt, jlt, jle, jfloor2, jfloor,
      SAFETY_MARGIN, SAFETY_FACTOR, PRICE_COLLAR_PERCENT, EXTRA_BUFFER]
  · rw [abs_of_pos (by norm_num)]
    norm_num

/-- Claim C9, amended: the scenario yields target allocation 10,
allocation min(10, 99) = 10, times 0.97 and floored at two decimals
gives 9.70 in exact arithmetic (binary float evaluation gives 9.69);
the quantity is the 1e-6 floor of notional over limit price. -/
theorem scenario_a_yields_970_c9 :
    placeOrderSizing (some 100) (some 100) 0 = SizeResult.submit (some (97/10))
  ∧ (∀ lp : ℚ, buyQty (97/10) lp = floorTo 6 ((97/10) / lp) ∧
      buyQty (97/10) lp ≤ (97/10) / lp) := by
  constructor
  · norm_num [placeOrderSizing, jmul, jmin, jsub, jgt, jlt, jle, jfloor2, jfloor,
      SAFETY_MARGIN, SAFETY_FACTOR, PRICE_COLLAR_PERCENT, EXTRA_BUFFER]
  · intro lp
    exact ⟨rfl, floorTo_le 6 _⟩

end BorB
